import Mathlib

/-
Verification of the callgrind sentinel parser and the vertical diff formatter
of iai-callgrind, embedded from
  src/iai-callgrind-runner/src/runner/callgrind/sentinel_parser.rs
  src/iai-callgrind-runner/src/runner/print.rs

Text is modelled as `List Char` (one list per line).  Rust's `str::trim` is
modelled at ASCII-whitespace granularity, which is the only whitespace the
report format produces.  Collaborator types that live outside the two staged
source files (`Costs`, `EventKind`, `Sentinel`, `truncate_str_utf8`,
`percentage_diff`, `factor_diff`, `to_string_signed_short`) are modelled from
the specification, as marked in their doc comments.
-/

def strL (s : String) : List Char := s.data

/-- Rust `char::is_ascii_whitespace`: space, tab, newline, form feed, carriage return. -/
def isAsciiWs (c : Char) : Bool :=
  c = ' ' || c = '\t' || c = '\n' || c = '\x0c' || c = '\r'

/-- Rust `char::is_ascii_digit`. -/
def isAsciiDigit (c : Char) : Bool :=
  '0' ≤ c && c ≤ '9'

/-- Rust `str::trim` on a line (at ASCII-whitespace granularity). -/
def trimAscii (l : List Char) : List Char :=
  ((l.dropWhile isAsciiWs).reverse.dropWhile isAsciiWs).reverse

/-- Whether the first character of the line is `c` (Rust `str::starts_with(char)`). -/
def headIs (c : Char) : List Char → Bool
  | [] => false
  | d :: _ => d == c

/-- Rust `line.starts_with(|c: char| c.is_ascii_digit())`. -/
def headIsDigit : List Char → Bool
  | [] => false
  | d :: _ => isAsciiDigit d

def splitWsAux : List Char → List Char → List (List Char)
  | [], acc => if acc.isEmpty then [] else [acc.reverse]
  | c :: cs, acc =>
    if isAsciiWs c then
      if acc.isEmpty then splitWsAux cs [] else acc.reverse :: splitWsAux cs []
    else splitWsAux cs (c :: acc)

/-- Rust `str::split_ascii_whitespace`: maximal non-whitespace runs, no empties. -/
def splitWs (l : List Char) : List (List Char) :=
  splitWsAux l []

def digitVal (c : Char) : Nat := c.toNat - '0'.toNat

def parseNatAux : List Char → Nat → Option Nat
  | [], acc => some acc
  | c :: cs, acc => if isAsciiDigit c then parseNatAux cs (acc * 10 + digitVal c) else none

/-- Rust `str::parse::<u64>()` restricted to plain decimal digit strings
(the counter tokens of the callgrind format are non-negative decimal integers). -/
def parseNatList (l : List Char) : Option Nat :=
  match l with
  | [] => none
  | _ :: _ => parseNatAux l 0

/-- Modelled from the spec (the `EventKind` registry is not among the staged
source files): the closed enumeration of cost-counter kinds.  The first nine
are the raw cache/instruction counters the derived metrics are computed from;
the display list of `VerticalFormat::default` in print.rs names the rest. -/
inductive EventKind
  | Ir | Dr | Dw
  | I1mr | D1mr | D1mw
  | ILmr | DLmr | DLmw
  | SysCount | SysTime | SysCpuTime
  | Ge
  | Bc | Bcm | Bi | Bim
  | ILdmr | DLdmr | DLdmw
  | AcCost1 | AcCost2 | SpLoss1 | SpLoss2
  | L1hits | LLhits | RamHits | TotalRW | EstimatedCycles
deriving DecidableEq

/-- Modelled from the spec: derived kinds are the computed summary metrics
(hit tiers, total read+write, estimated cycles); every other kind is raw. -/
def EventKind.is_derived : EventKind → Bool
  | .L1hits | .LLhits | .RamHits | .TotalRW | .EstimatedCycles => true
  | _ => false

/-- Modelled from the spec (`Costs` is not among the staged source files): an
ordered mapping from EventKind to a non-negative counter, plus the
`summarized` flag reported by `is_summarized`. -/
structure Costs where
  entries : List (EventKind × Nat)
  summarized : Bool
deriving DecidableEq

/-- The parse error kinds of spec section 7 that the staged code can raise. -/
inductive ParseErr
  | malformedCostLine (token : List Char)
  | sentinelNotFound (sentinel : List Char) (source : List Char)
deriving DecidableEq

/-- Modelled from the spec: the worker of `Costs::add_iter_str`.  Tokens are
added position-by-position to the counters in declared-event order; a token
sequence shorter than the counter list leaves the trailing counters
unchanged (zero increment), tokens beyond the counter list are ignored, and
a non-numeric token in a counter position is a `MalformedCostLine` error. -/
def addEntries : List (EventKind × Nat) → List (List Char) → Except ParseErr (List (EventKind × Nat))
  | es, [] => .ok es
  | [], _ => .ok []
  | (k, v) :: es, t :: ts =>
    match parseNatList t with
    | some n =>
      match addEntries es ts with
      | .ok es' => .ok ((k, v + n) :: es')
      | .error e => .error e
    | none => .error (.malformedCostLine t)

/-- Modelled from the spec: `Costs::add_iter_str`. -/
def Costs.add_iter_str (c : Costs) (tokens : List (List Char)) : Except ParseErr Costs :=
  match addEntries c.entries tokens with
  | .ok es => .ok { c with entries := es }
  | .error e => .error e

/-- Modelled from the spec: `Costs::cost_by_kind`, lookup of a kind's counter. -/
def Costs.cost_by_kind (c : Costs) (k : EventKind) : Option Nat :=
  (c.entries.find? (fun p => p.1 == k)).map (fun p => p.2)

/-- Modelled from the spec: a `Sentinel` is an immutable match specification
exposing a deterministic, side-effect-free match test (Rust `Sentinel::matches`), plus a display string
used in diagnostics. -/
structure Sentinel where
  display : List Char
  matchesLabel : List Char → Bool

/-- The minimal matching rule the spec guarantees: exact string equality. -/
def Sentinel.exact (name : List Char) : Sentinel :=
  { display := name, matchesLabel := fun c => c == name }

/-- The header data `parse_header` hands to `SentinelParser::parse`:
an ordered list of position-field labels and the zero-valued costs prototype. -/
structure CallgrindProperties where
  positions_prototype : List (List Char)
  costs_prototype : Costs

structure SentinelParser where
  sentinel : Sentinel

/-- The loop state of `SentinelParser::parse` (sentinel_parser.rs lines 37-39):
`found`, the `costs` accumulator and the `start_record` flag (`start_record`
false is the SEEKING state, true is IN_RECORD). -/
structure ScanState where
  found : Bool
  costs : Costs
  startRecord : Bool
deriving DecidableEq

/-- Rust `line.strip_prefix("fn=")`. -/
def fnLabelOf : List Char → Option (List Char)
  | 'f' :: 'n' :: '=' :: rest => some rest
  | _ => none

/-- One iteration of the scan loop of `SentinelParser::parse`
(sentinel_parser.rs lines 41-76).  The comment-line filter of line 41 is the
first test; the error case is the `MalformedCostLine` failure of
`add_iter_str` (spec section 7), which aborts the parse. -/
def step (sent : Sentinel) (npos : Nat) (s : ScanState) (l : List Char) : Except ParseErr ScanState :=
  if headIs '#' l then .ok s
  else
    let t := trimAscii l
    if t.isEmpty then .ok { s with startRecord := false }
    else if !s.startRecord then
      match fnLabelOf t with
      | some func =>
        if sent.matchesLabel func then .ok { s with found := true, startRecord := true }
        else .ok s
      | none => .ok s
    else
      if headIsDigit t then
        match s.costs.add_iter_str ((splitWs t).drop npos) with
        | .ok c => .ok { s with costs := c }
        | .error e => .error e
      else .ok s

/-- The scan loop of `SentinelParser::parse` over the report body. -/
def runLines (sent : Sentinel) (npos : Nat) : List (List Char) → ScanState → Except ParseErr ScanState
  | [], s => .ok s
  | l :: ls, s =>
    match step sent npos s l with
    | .ok s' => runLines sent npos ls s'
    | .error e => .error e

/-- `SentinelParser::parse` (sentinel_parser.rs lines 24-87) after the header
has been parsed: scan the body lines, then either return the accumulated
costs or fail with `SentinelNotFound` naming the sentinel and the source
label (lines 78-86). -/
def SentinelParser.parse (p : SentinelParser) (sourceLabel : List Char)
    (props : CallgrindProperties) (lines : List (List Char)) : Except ParseErr Costs :=
  match runLines p.sentinel props.positions_prototype.length lines
      { found := false, costs := props.costs_prototype, startRecord := false } with
  | .ok s =>
    if s.found then .ok s.costs
    else .error (.sentinelNotFound p.sentinel.display sourceLabel)
  | .error e => .error e

/-- Whether some `fn=` line reached in the SEEKING state matches the
sentinel: the pure characterization of the `found` flag, following the same
line discipline as `step` (comment skip, trim, blank-line reset). -/
def anySeekMatch (sent : Sentinel) : List (List Char) → Bool → Bool
  | [], _ => false
  | l :: ls, sr =>
    if headIs '#' l then anySeekMatch sent ls sr
    else
      let t := trimAscii l
      if t.isEmpty then anySeekMatch sent ls false
      else if sr then anySeekMatch sent ls sr
      else
        match fnLabelOf t with
        | some func => if sent.matchesLabel func then true else anySeekMatch sent ls sr
        | none => anySeekMatch sent ls sr

/-! ### Character and token facts -/

theorem ws_not_digit (c : Char) (h : isAsciiWs c = true) : isAsciiDigit c = false := by
  simp only [isAsciiWs, Bool.or_eq_true, decide_eq_true_eq] at h
  rcases h with (((h | h) | h) | h) | h <;> subst h <;> decide

theorem digit_not_ws (c : Char) (h : isAsciiDigit c = true) : isAsciiWs c = false := by
  cases hw : isAsciiWs c with
  | false => rfl
  | true => exact absurd h (by simp [ws_not_digit c hw])

theorem digit_ne_hash (c : Char) (h : isAsciiDigit c = true) : (c == '#') = false := by
  cases hb : c == '#' with
  | false => rfl
  | true =>
    have := eq_of_beq hb
    subst this
    exact absurd h (by decide)

theorem parseNatAux_digits : ∀ (l : List Char) (acc v : Nat), parseNatAux l acc = some v →
    ∀ c ∈ l, isAsciiDigit c = true := by
  intro l
  induction l with
  | nil => intro acc v _ c hc; exact absurd hc (List.not_mem_nil c)
  | cons a l ih =>
    intro acc v h c hc
    by_cases hd : isAsciiDigit a = true
    · rcases List.mem_cons.mp hc with rfl | hc'
      · exact hd
      · simp only [parseNatAux, hd, if_true] at h
        exact ih _ _ h c hc'
    · simp only [parseNatAux, hd, if_false] at h
      exact absurd h (by simp)

theorem parseNatList_digits (l : List Char) (v : Nat) (h : parseNatList l = some v) :
    ∀ c ∈ l, isAsciiDigit c = true := by
  cases l with
  | nil => intro c hc; exact absurd hc (List.not_mem_nil c)
  | cons a l => exact parseNatAux_digits (a :: l) 0 v h

theorem parseNatList_ne_nil (l : List Char) (v : Nat) (h : parseNatList l = some v) : l ≠ [] := by
  intro hl
  subst hl
  simp [parseNatList] at h

theorem dropWhile_of_none (p : Char → Bool) (l : List Char) (h : ∀ c ∈ l, p c = false) :
    l.dropWhile p = l := by
  cases l with
  | nil => rfl
  | cons a l => simp [List.dropWhile_cons, h a (List.mem_cons_self a l)]

theorem trimAscii_of_no_ws (l : List Char) (h : ∀ c ∈ l, isAsciiWs c = false) :
    trimAscii l = l := by
  unfold trimAscii
  rw [dropWhile_of_none _ l h,
    dropWhile_of_none _ l.reverse (fun c hc => h c (List.mem_reverse.mp hc)),
    List.reverse_reverse]

theorem splitWsAux_no_ws : ∀ (l acc : List Char), (∀ c ∈ l, isAsciiWs c = false) →
    splitWsAux l acc = if (acc.reverse ++ l).isEmpty then [] else [acc.reverse ++ l] := by
  intro l
  induction l with
  | nil =>
    intro acc _
    have hrev : acc.reverse.isEmpty = acc.isEmpty := by
      cases acc with
      | nil => rfl
      | cons a l => simp
    simp only [splitWsAux, List.append_nil, hrev]
  | cons a l ih =>
    intro acc h
    have ha : isAsciiWs a = false := h a (List.mem_cons_self a l)
    simp only [splitWsAux, ha, if_false, Bool.false_eq_true]
    rw [ih (a :: acc) (fun c hc => h c (List.mem_cons_of_mem a hc))]
    simp [List.append_assoc]

theorem splitWs_single (l : List Char) (hne : l ≠ []) (h : ∀ c ∈ l, isAsciiWs c = false) :
    splitWs l = [l] := by
  unfold splitWs
  rw [splitWsAux_no_ws l [] h]
  simp only [List.reverse_nil, List.nil_append]
  rw [if_neg]
  simpa [List.isEmpty_iff] using hne

/-- The line shape of a token that `parseNatList` accepts: no comment marker,
trim-invariant, non-empty, digit-leading, a single whitespace token. -/
theorem digit_line_facts (l : List Char) (v : Nat) (h : parseNatList l = some v) :
    headIs '#' l = false ∧ trimAscii l = l ∧ l ≠ [] ∧ headIsDigit l = true ∧ splitWs l = [l] := by
  have hd := parseNatList_digits l v h
  have hne := parseNatList_ne_nil l v h
  have hws : ∀ c ∈ l, isAsciiWs c = false := fun c hc => digit_not_ws c (hd c hc)
  refine ⟨?_, trimAscii_of_no_ws l hws, hne, ?_, splitWs_single l hne hws⟩
  · cases l with
    | nil => rfl
    | cons a l => exact digit_ne_hash a (hd a (List.mem_cons_self a l))
  · cases l with
    | nil => exact absurd rfl hne
    | cons a l => exact hd a (List.mem_cons_self a l)

/-! ### Step shape lemmas -/

theorem step_hash (sent : Sentinel) (npos : Nat) (s : ScanState) (l : List Char)
    (h : headIs '#' l = true) : step sent npos s l = .ok s := by
  simp [step, h]

theorem step_blank (sent : Sentinel) (npos : Nat) (s : ScanState) (l : List Char)
    (hh : headIs '#' l = false) (ht : trimAscii l = []) :
    step sent npos s l = .ok { s with startRecord := false } := by
  simp [step, hh, ht]

theorem step_digit (sent : Sentinel) (npos : Nat) (s : ScanState) (l : List Char)
    (hh : headIs '#' l = false) (hsr : s.startRecord = true)
    (hd : headIsDigit (trimAscii l) = true) :
    step sent npos s l =
      match s.costs.add_iter_str ((splitWs (trimAscii l)).drop npos) with
      | .ok c => .ok { s with costs := c }
      | .error e => .error e := by
  have hne : (trimAscii l).isEmpty = false := by
    cases hl : trimAscii l with
    | nil => rw [hl] at hd; simp [headIsDigit] at hd
    | cons a t => simp
  simp [step, hh, hne, hsr, hd]

theorem step_inrecord_skip (sent : Sentinel) (npos : Nat) (s : ScanState) (l : List Char)
    (hh : headIs '#' l = false) (hsr : s.startRecord = true)
    (hne : trimAscii l ≠ []) (hd : headIsDigit (trimAscii l) = false) :
    step sent npos s l = .ok s := by
  have hne' : (trimAscii l).isEmpty = false := by simpa [List.isEmpty_iff] using hne
  simp [step, hh, hne', hsr, hd]

theorem fnLabelOf_not_digit (t f : List Char) (h : fnLabelOf t = some f) :
    headIsDigit t = false := by
  unfold fnLabelOf at h
  split at h
  · cases h; rfl
  · exact absurd h (by simp)

/-! ### Scan loop lemmas -/

theorem runLines_append (sent : Sentinel) (npos : Nat) :
    ∀ (l1 l2 : List (List Char)) (s : ScanState),
      runLines sent npos (l1 ++ l2) s =
        match runLines sent npos l1 s with
        | .ok s' => runLines sent npos l2 s'
        | .error e => .error e := by
  intro l1
  induction l1 with
  | nil => intro l2 s; rfl
  | cons l ls ih =>
    intro l2 s
    simp only [List.cons_append, runLines]
    cases step sent npos s l with
    | ok s' => exact ih l2 s'
    | error e => rfl

theorem addEntries_error : ∀ (es : List (EventKind × Nat)) (ts : List (List Char)) (e : ParseErr),
    addEntries es ts = .error e → ∃ t, e = .malformedCostLine t := by
  intro es
  induction es with
  | nil =>
    intro ts e h
    cases ts <;> simp [addEntries] at h
  | cons p es ih =>
    intro ts e h
    cases ts with
    | nil => simp [addEntries] at h
    | cons t ts =>
      obtain ⟨k, v⟩ := p
      simp only [addEntries] at h
      cases hp : parseNatList t with
      | none =>
        rw [hp] at h
        cases h
        exact ⟨t, rfl⟩
      | some n =>
        rw [hp] at h
        cases hrec : addEntries es ts with
        | ok es' => rw [hrec] at h; cases h
        | error e' =>
          rw [hrec] at h
          cases h
          exact ih ts e hrec

theorem add_iter_str_error (c : Costs) (ts : List (List Char)) (e : ParseErr)
    (h : c.add_iter_str ts = .error e) : ∃ t, e = .malformedCostLine t := by
  unfold Costs.add_iter_str at h
  cases hrec : addEntries c.entries ts with
  | ok es => rw [hrec] at h; cases h
  | error e' =>
    rw [hrec] at h
    cases h
    exact addEntries_error c.entries ts e hrec

/-- Any error a scan step raises is a `MalformedCostLine`, and it can only be
raised while IN_RECORD. -/
theorem step_error (sent : Sentinel) (npos : Nat) (s : ScanState) (l : List Char) (e : ParseErr)
    (h : step sent npos s l = .error e) :
    (∃ t, e = .malformedCostLine t) ∧ s.startRecord = true := by
  unfold step at h
  by_cases hh : headIs '#' l = true
  · simp [hh] at h
  · simp only [Bool.not_eq_true] at hh
    simp only [hh, Bool.false_eq_true, if_false] at h
    by_cases hemp : (trimAscii l).isEmpty = true
    · simp [hemp] at h
    · simp only [Bool.not_eq_true] at hemp
      simp only [hemp, Bool.false_eq_true, if_false] at h
      by_cases hsr : s.startRecord = true
      · simp only [hsr, Bool.not_true, Bool.false_eq_true, if_false] at h
        by_cases hd : headIsDigit (trimAscii l) = true
        · simp only [hd, if_true] at h
          cases hadd : Costs.add_iter_str s.costs ((splitWs (trimAscii l)).drop npos) with
          | ok c => rw [hadd] at h; cases h
          | error e' =>
            rw [hadd] at h
            cases h
            exact ⟨add_iter_str_error _ _ _ hadd, hsr⟩
        · simp only [Bool.not_eq_true] at hd
          simp [hd] at h
      · simp only [Bool.not_eq_true] at hsr
        simp only [hsr, Bool.not_false, if_true] at h
        cases hfn : fnLabelOf (trimAscii l) with
        | some f =>
          rw [hfn] at h
          by_cases hm : sent.matchesLabel f = true <;> simp [hm] at h
        | none => rw [hfn] at h; cases h

/-- A successful scan step never lowers the `found` flag. -/
theorem step_found_mono (sent : Sentinel) (npos : Nat) (s s' : ScanState) (l : List Char)
    (h : step sent npos s l = .ok s') (hf : s.found = true) : s'.found = true := by
  unfold step at h
  by_cases hh : headIs '#' l = true
  · simp only [hh, if_true] at h
    cases h
    exact hf
  · simp only [Bool.not_eq_true] at hh
    simp only [hh, Bool.false_eq_true, if_false] at h
    by_cases hemp : (trimAscii l).isEmpty = true
    · simp only [hemp, if_true] at h
      cases h
      exact hf
    · simp only [Bool.not_eq_true] at hemp
      simp only [hemp, Bool.false_eq_true, if_false] at h
      by_cases hsr : s.startRecord = true
      · simp only [hsr, Bool.not_true, Bool.false_eq_true, if_false] at h
        by_cases hd : headIsDigit (trimAscii l) = true
        · simp only [hd, if_true] at h
          cases hadd : Costs.add_iter_str s.costs ((splitWs (trimAscii l)).drop npos) with
          | ok c =>
            rw [hadd] at h
            cases h
            exact hf
          | error e' => rw [hadd] at h; cases h
        · simp only [Bool.not_eq_true] at hd
          simp only [hd, Bool.false_eq_true, if_false] at h
          cases h
          exact hf
      · simp only [Bool.not_eq_true] at hsr
        simp only [hsr, Bool.not_false, if_true] at h
        cases hfn : fnLabelOf (trimAscii l) with
        | some f =>
          rw [hfn] at h
          by_cases hm : sent.matchesLabel f = true
          · simp only [hm, if_true] at h
            cases h
            rfl
          · simp only [hm, Bool.false_eq_true, if_false] at h
            cases h
            exact hf
        | none =>
          rw [hfn] at h
          cases h
          exact hf

theorem step_seek_fn_match (sent : Sentinel) (npos : Nat) (s : ScanState) (l f : List Char)
    (hh : headIs '#' l = false) (hne : trimAscii l ≠ []) (hsr : s.startRecord = false)
    (hfn : fnLabelOf (trimAscii l) = some f) (hm : sent.matchesLabel f = true) :
    step sent npos s l = .ok { s with found := true, startRecord := true } := by
  have hne' : (trimAscii l).isEmpty = false := by simpa [List.isEmpty_iff] using hne
  simp [step, hh, hne', hsr, hfn, hm]

theorem step_seek_fn_nomatch (sent : Sentinel) (npos : Nat) (s : ScanState) (l f : List Char)
    (hh : headIs '#' l = false) (hne : trimAscii l ≠ []) (hsr : s.startRecord = false)
    (hfn : fnLabelOf (trimAscii l) = some f) (hm : sent.matchesLabel f = false) :
    step sent npos s l = .ok s := by
  have hne' : (trimAscii l).isEmpty = false := by simpa [List.isEmpty_iff] using hne
  simp [step, hh, hne', hsr, hfn, hm]

theorem step_seek_nofn (sent : Sentinel) (npos : Nat) (s : ScanState) (l : List Char)
    (hh : headIs '#' l = false) (hne : trimAscii l ≠ []) (hsr : s.startRecord = false)
    (hfn : fnLabelOf (trimAscii l) = none) :
    step sent npos s l = .ok s := by
  have hne' : (trimAscii l).isEmpty = false := by simpa [List.isEmpty_iff] using hne
  simp [step, hh, hne', hsr, hfn]

/-- The `found` flag of the whole scan is exactly "some `fn=` line reached in
the SEEKING state matches the sentinel", and the only way the scan can abort
is a `MalformedCostLine` raised after a match. -/
theorem runLines_found_characterize (sent : Sentinel) (npos : Nat) :
    ∀ (ls : List (List Char)) (s : ScanState), (s.startRecord = true → s.found = true) →
      (match runLines sent npos ls s with
       | .ok s1 => s1.found = (s.found || anySeekMatch sent ls s.startRecord)
       | .error e =>
           (s.found || anySeekMatch sent ls s.startRecord) = true ∧
           ∃ t, e = .malformedCostLine t) := by
  intro ls
  induction ls with
  | nil =>
    intro s _
    simp [runLines, anySeekMatch]
  | cons l ls ih =>
    intro s hinv
    by_cases hh : headIs '#' l = true
    · have hstep := step_hash sent npos s l hh
      simp only [runLines, hstep, anySeekMatch, hh, if_true]
      exact ih s hinv
    · have hh' : headIs '#' l = false := by simpa using hh
      by_cases hemp : trimAscii l = []
      · have hemp' : (trimAscii l).isEmpty = true := by simp [hemp]
        have hstep := step_blank sent npos s l hh' hemp
        simp only [runLines, hstep, anySeekMatch, hh', Bool.false_eq_true, if_false, hemp',
          if_true]
        have h2 := ih { s with startRecord := false } (by simp)
        simpa using h2
      · have hemp' : (trimAscii l).isEmpty = false := by simpa [List.isEmpty_iff] using hemp
        by_cases hsr : s.startRecord = true
        · have hf := hinv hsr
          by_cases hd : headIsDigit (trimAscii l) = true
          · have hstep := step_digit sent npos s l hh' hsr hd
            cases hadd : s.costs.add_iter_str ((splitWs (trimAscii l)).drop npos) with
            | ok c =>
              have hstep2 : step sent npos s l = .ok { s with costs := c } := by
                rw [hstep, hadd]
              simp only [runLines, hstep2, anySeekMatch, hh', Bool.false_eq_true, if_false,
                hemp', hsr, if_true]
              have h2 := ih { s with costs := c } (fun _ => hf)
              simpa [hsr] using h2
            | error e =>
              have hstep2 : step sent npos s l = .error e := by
                rw [hstep, hadd]
              simp only [runLines, hstep2]
              exact ⟨by simp [hf], add_iter_str_error _ _ _ hadd⟩
          · have hd' : headIsDigit (trimAscii l) = false := by simpa using hd
            have hstep := step_inrecord_skip sent npos s l hh' hsr hemp hd'
            simp only [runLines, hstep, anySeekMatch, hh', Bool.false_eq_true, if_false,
              hemp', hsr, if_true]
            have h2 := ih s hinv
            rw [hsr] at h2
            exact h2
        · have hsr' : s.startRecord = false := by simpa using hsr
          cases hfn : fnLabelOf (trimAscii l) with
          | some f =>
            by_cases hm : sent.matchesLabel f = true
            · have hstep := step_seek_fn_match sent npos s l f hh' hemp hsr' hfn hm
              simp only [runLines, hstep]
              have h2 := ih { s with found := true, startRecord := true } (fun _ => rfl)
              have hany : anySeekMatch sent (l :: ls) s.startRecord = true := by
                simp [anySeekMatch, hh', hemp', hsr', hfn, hm]
              rw [hany]
              cases hres : runLines sent npos ls { s with found := true, startRecord := true } with
              | ok s1 =>
                rw [hres] at h2
                simp only [Bool.or_true]
                simpa using h2
              | error e =>
                rw [hres] at h2
                exact ⟨by simp, h2.2⟩
            · have hm' : sent.matchesLabel f = false := by simpa using hm
              have hstep := step_seek_fn_nomatch sent npos s l f hh' hemp hsr' hfn hm'
              simp only [runLines, hstep, anySeekMatch, hh', Bool.false_eq_true, if_false,
                hemp', hsr', hfn, hm']
              have h2 := ih s hinv
              rw [hsr'] at h2
              exact h2
          | none =>
            have hstep := step_seek_nofn sent npos s l hh' hemp hsr' hfn
            simp only [runLines, hstep, anySeekMatch, hh', Bool.false_eq_true, if_false,
              hemp', hsr', hfn]
            have h2 := ih s hinv
            rw [hsr'] at h2
            exact h2

/-- The numeric increment the scan applies at counter position `i`: the parsed
token when one exists, zero when the cost line is short. -/
def tokVal (ts : List (List Char)) (i : Nat) : Nat :=
  match ts[i]? with
  | some t => (parseNatList t).getD 0
  | none => 0

theorem addEntries_characterize :
    ∀ (es : List (EventKind × Nat)) (ts : List (List Char)),
      (∀ t ∈ ts.take es.length, (parseNatList t).isSome = true) →
      ∃ es', addEntries es ts = .ok es' ∧
        ∀ i : Nat, es'[i]? = (es[i]?).map (fun p => (p.1, p.2 + tokVal ts i)) := by
  intro es
  induction es with
  | nil =>
    intro ts _
    refine ⟨[], ?_, ?_⟩
    · cases ts <;> rfl
    · intro i; simp
  | cons p es ih =>
    intro ts hnum
    obtain ⟨k, v⟩ := p
    cases ts with
    | nil =>
      refine ⟨(k, v) :: es, rfl, ?_⟩
      intro i
      have h0 : tokVal ([] : List (List Char)) i = 0 := by simp [tokVal]
      rw [h0]
      cases h : ((k, v) :: es)[i]? with
      | none => simp [h]
      | some q => simp [h]
    | cons t ts' =>
      have ht : (parseNatList t).isSome = true := by
        refine hnum t ?_
        rw [List.length_cons, List.take_succ_cons]
        exact List.mem_cons_self t _
      obtain ⟨n, hn⟩ := Option.isSome_iff_exists.mp ht
      have hnum' : ∀ u ∈ ts'.take es.length, (parseNatList u).isSome = true := by
        intro u hu
        refine hnum u ?_
        rw [List.length_cons, List.take_succ_cons]
        exact List.mem_cons_of_mem t hu
      obtain ⟨es', hes', hptw⟩ := ih ts' hnum'
      refine ⟨(k, v + n) :: es', ?_, ?_⟩
      · simp only [addEntries, hn, hes']
      · intro i
        cases i with
        | zero => simp [tokVal, hn]
        | succ j =>
          have htv : tokVal (t :: ts') (j + 1) = tokVal ts' j := by
            simp [tokVal]
          simpa [htv] using hptw j

/-- Claim C3: while IN_RECORD, a digit-leading line is handled by splitting
the trimmed line on ASCII whitespace, discarding exactly the declared number
of position tokens, and merging the rest via `add_iter_str`; and
`add_iter_str` adds the tokens position-by-position to the counters in
declared order, zero-increments the counters past the end of a short token
sequence, and ignores tokens beyond the declared counter count. -/
theorem c3_cost_line_tokenization
    (sent : Sentinel) (npos : Nat) (s : ScanState) (l : List Char)
    (c : Costs) (ts : List (List Char))
    (hsr : s.startRecord = true) (hh : headIs '#' l = false)
    (hd : headIsDigit (trimAscii l) = true)
    (hnum : ∀ t ∈ ts.take c.entries.length, (parseNatList t).isSome = true) :
    (step sent npos s l =
      match s.costs.add_iter_str ((splitWs (trimAscii l)).drop npos) with
      | .ok c' => .ok { s with costs := c' }
      | .error e => .error e) ∧
    ∃ c', c.add_iter_str ts = .ok c' ∧
      c'.summarized = c.summarized ∧
      ∀ i : Nat, c'.entries[i]? = (c.entries[i]?).map (fun p => (p.1, p.2 + tokVal ts i)) := by
  refine ⟨step_digit sent npos s l hh hsr hd, ?_⟩
  obtain ⟨es', hes', hptw⟩ := addEntries_characterize c.entries ts hnum
  refine ⟨{ c with entries := es' }, ?_, rfl, hptw⟩
  simp only [Costs.add_iter_str, hes']

/-- Witness for C3 at a concrete input: positions count 1, token line
"1 5" (one position field, one counter), and a direct `add_iter_str` call
adding "7" to the two-counter vector [(Ir, 2), (Dr, 3)]. -/
theorem c3_witness :
    (step (Sentinel.exact (strL "t")) 1
        { found := true, costs := { entries := [(.Ir, 0)], summarized := false },
          startRecord := true } (strL "1 5") =
      match Costs.add_iter_str
          { entries := [(EventKind.Ir, 0)], summarized := false }
          ((splitWs (trimAscii (strL "1 5"))).drop 1) with
      | .ok c' => .ok { found := true, costs := c', startRecord := true }
      | .error e => .error e) ∧
    ∃ c', Costs.add_iter_str { entries := [(EventKind.Ir, 2), (EventKind.Dr, 3)], summarized := false }
        [strL "7"] = .ok c' ∧
      c'.summarized = false ∧
      ∀ i : Nat, c'.entries[i]? =
        (([(EventKind.Ir, 2), (EventKind.Dr, 3)] : List (EventKind × Nat))[i]?).map
          (fun p => (p.1, p.2 + tokVal [strL "7"] i)) := by
  exact c3_cost_line_tokenization (Sentinel.exact (strL "t")) 1
    { found := true, costs := { entries := [(.Ir, 0)], summarized := false }, startRecord := true }
    (strL "1 5") { entries := [(.Ir, 2), (.Dr, 3)], summarized := false } [strL "7"]
    rfl rfl rfl (by decide)

theorem fnLabelOf_ne_nil (t f : List Char) (h : fnLabelOf t = some f) : t ≠ [] := by
  intro h0
  rw [h0] at h
  exact Option.noConfusion h

/-- Claim C5: comment lines never change state or costs in either scan state;
a line empty after trimming unconditionally re-enters SEEKING and changes
nothing else; no other successful step leaves IN_RECORD or touches `found`;
and in particular an `fn=` line met while IN_RECORD is ignored entirely. -/
theorem c5_line_state_transitions (sent : Sentinel) (npos : Nat) (s : ScanState) (l : List Char) :
    (headIs '#' l = true → step sent npos s l = .ok s) ∧
    (headIs '#' l = false → trimAscii l = [] →
      step sent npos s l = .ok { s with startRecord := false }) ∧
    (s.startRecord = true → trimAscii l ≠ [] → ∀ s', step sent npos s l = .ok s' →
      s'.startRecord = true ∧ s'.found = s.found) ∧
    (s.startRecord = true → headIs '#' l = false → ∀ f, fnLabelOf (trimAscii l) = some f →
      step sent npos s l = .ok s) := by
  refine ⟨step_hash sent npos s l, step_blank sent npos s l, ?_, ?_⟩
  · intro hsr hne s' hstep
    by_cases hh : headIs '#' l = true
    · rw [step_hash sent npos s l hh] at hstep
      cases hstep
      exact ⟨hsr, rfl⟩
    · have hh' : headIs '#' l = false := by simpa using hh
      by_cases hd : headIsDigit (trimAscii l) = true
      · rw [step_digit sent npos s l hh' hsr hd] at hstep
        cases hadd : s.costs.add_iter_str ((splitWs (trimAscii l)).drop npos) with
        | ok c =>
          rw [hadd] at hstep
          cases hstep
          exact ⟨hsr, rfl⟩
        | error e =>
          rw [hadd] at hstep
          exact Except.noConfusion hstep
      · have hd' : headIsDigit (trimAscii l) = false := by simpa using hd
        rw [step_inrecord_skip sent npos s l hh' hsr hne hd'] at hstep
        cases hstep
        exact ⟨hsr, rfl⟩
  · intro hsr hh f hfn
    exact step_inrecord_skip sent npos s l hh hsr (fnLabelOf_ne_nil _ f hfn)
      (fnLabelOf_not_digit _ f hfn)

/-- Claim C4: once the scan is inside a matched block, a digit-leading cost
line whose counter tokens are malformed aborts the whole parse with that
`MalformedCostLine` error, whatever lines follow — no partially aggregated
result is returned. -/
theorem c4_malformed_aborts
    (sent : Sentinel) (label : List Char) (props : CallgrindProperties)
    (pre post : List (List Char)) (l : List Char) (s : ScanState) (t : List Char)
    (hrun : runLines sent props.positions_prototype.length pre
        { found := false, costs := props.costs_prototype, startRecord := false } = .ok s)
    (hsr : s.startRecord = true)
    (hh : headIs '#' l = false)
    (hd : headIsDigit (trimAscii l) = true)
    (hadd : s.costs.add_iter_str
        ((splitWs (trimAscii l)).drop props.positions_prototype.length) =
      .error (.malformedCostLine t)) :
    SentinelParser.parse ⟨sent⟩ label props (pre ++ l :: post) =
      .error (.malformedCostLine t) := by
  have hstep : step sent props.positions_prototype.length s l =
      .error (.malformedCostLine t) := by
    rw [step_digit sent props.positions_prototype.length s l hh hsr hd, hadd]
  unfold SentinelParser.parse
  rw [runLines_append sent props.positions_prototype.length pre (l :: post) _, hrun]
  simp only [runLines, hstep]

/-- Witness for C4: sentinel "t", two declared events, no position fields; the
matched block's cost line "5 x" has the malformed counter token "x", and the
parse aborts even though another cost line follows. -/
theorem c4_witness :
    SentinelParser.parse ⟨Sentinel.exact (strL "t")⟩ (strL "report")
        ⟨[], { entries := [(.Ir, 0), (.Dr, 0)], summarized := false }⟩
        ([strL "fn=t"] ++ strL "5 x" :: [strL "9 9"]) =
      .error (.malformedCostLine (strL "x")) := by
  exact c4_malformed_aborts (Sentinel.exact (strL "t")) (strL "report")
    ⟨[], { entries := [(.Ir, 0), (.Dr, 0)], summarized := false }⟩
    [strL "fn=t"] [strL "9 9"] (strL "5 x")
    { found := true, costs := { entries := [(.Ir, 0), (.Dr, 0)], summarized := false },
      startRecord := true }
    (strL "x") rfl rfl rfl rfl rfl

/-- Counterexample to claim C2 as stated: in this report an `fn=` line
matching the sentinel is reached in the SEEKING state, yet the parse does not
return Ok — the malformed counter token "x" inside the matched block aborts
it with `MalformedCostLine`. -/
theorem c2_counterexample :
    SentinelParser.parse ⟨Sentinel.exact (strL "target")⟩ (strL "report")
        ⟨[], { entries := [(.Ir, 0), (.Dr, 0)], summarized := false }⟩
        [strL "fn=target", strL "5 x"] =
      .error (.malformedCostLine (strL "x")) ∧
    anySeekMatch (Sentinel.exact (strL "target")) [strL "fn=target", strL "5 x"] false = true :=
  ⟨rfl, rfl⟩

/-- Claim C2 as amended: the parse fails with `SentinelNotFound` (naming the
sentinel and the source label) if and only if no `fn=` line reached while
SEEKING matches the sentinel; when at least one matches, the parse returns
the accumulated Costs unless a malformed cost line inside a matched block
aborts it with `MalformedCostLine` — non-matching blocks and their cost
lines never cause a failure. -/
theorem c2_sentinel_not_found (sent : Sentinel) (label : List Char)
    (props : CallgrindProperties) (lines : List (List Char)) :
    (SentinelParser.parse ⟨sent⟩ label props lines =
        .error (.sentinelNotFound sent.display label) ↔
      anySeekMatch sent lines false = false) ∧
    (anySeekMatch sent lines false = true →
      (∃ c, SentinelParser.parse ⟨sent⟩ label props lines = .ok c) ∨
      (∃ t, SentinelParser.parse ⟨sent⟩ label props lines =
        .error (.malformedCostLine t))) := by
  have hchar := runLines_found_characterize sent props.positions_prototype.length lines
    { found := false, costs := props.costs_prototype, startRecord := false } (by simp)
  unfold SentinelParser.parse
  cases hres : runLines sent props.positions_prototype.length lines
      { found := false, costs := props.costs_prototype, startRecord := false } with
  | ok s1 =>
    rw [hres] at hchar
    simp only [Bool.false_or] at hchar
    by_cases hany : anySeekMatch sent lines false = true
    · rw [hany] at hchar
      simp only [hchar, if_true]
      constructor
      · simp [hany]
      · intro _
        exact Or.inl ⟨s1.costs, rfl⟩
    · have hany' : anySeekMatch sent lines false = false := by simpa using hany
      rw [hany'] at hchar
      simp only [hchar, Bool.false_eq_true, if_false]
      constructor
      · simp [hany']
      · intro h
        exact absurd h (by simp [hany'])
  | error e =>
    rw [hres] at hchar
    obtain ⟨hanytrue, t, rfl⟩ := hchar
    simp only [Bool.false_or] at hanytrue
    constructor
    · constructor
      · intro h
        simp at h
      · intro h
        rw [hanytrue] at h
        exact absurd h (by simp)
    · intro _
      exact Or.inr ⟨t, rfl⟩

/-- Claim C1: two disjoint blocks whose `fn=` label matches the sentinel both
contribute to the same accumulator: with a single declared event and no
position fields, a block with cost line `ta` (value `va`) and a later
disjoint block with cost line `tb` (value `vb`) parse to that event's
counter equal to `va + vb`. -/
theorem c1_multi_occurrence_aggregation
    (k : EventKind) (label ta tb : List Char) (va vb : Nat)
    (ha : parseNatList ta = some va) (hb : parseNatList tb = some vb) :
    SentinelParser.parse ⟨Sentinel.exact (strL "target")⟩ label
        ⟨[], { entries := [(k, 0)], summarized := false }⟩
        [strL "fn=target", ta, [], strL "fn=target", tb] =
      .ok { entries := [(k, va + vb)], summarized := false } := by
  obtain ⟨hh1, ht1, hn1, hd1, hs1⟩ := digit_line_facts ta va ha
  obtain ⟨hh2, ht2, hn2, hd2, hs2⟩ := digit_line_facts tb vb hb
  have a1 : Costs.add_iter_str ⟨[(k, 0)], false⟩ [ta] = .ok ⟨[(k, 0 + va)], false⟩ := by
    simp [Costs.add_iter_str, addEntries, ha]
  have a2 : Costs.add_iter_str ⟨[(k, 0 + va)], false⟩ [tb] =
      .ok ⟨[(k, 0 + va + vb)], false⟩ := by
    simp [Costs.add_iter_str, addEntries, hb]
  have e1 : step (Sentinel.exact (strL "target")) 0 ⟨false, ⟨[(k, 0)], false⟩, false⟩
      (strL "fn=target") = .ok ⟨true, ⟨[(k, 0)], false⟩, true⟩ := rfl
  have e2 : step (Sentinel.exact (strL "target")) 0 ⟨true, ⟨[(k, 0)], false⟩, true⟩ ta =
      .ok ⟨true, ⟨[(k, 0 + va)], false⟩, true⟩ := by
    rw [step_digit (Sentinel.exact (strL "target")) 0 _ ta hh1 rfl (by rw [ht1]; exact hd1)]
    rw [ht1, hs1, List.drop_zero]
    rw [show Costs.add_iter_str (⟨true, ⟨[(k, 0)], false⟩, true⟩ : ScanState).costs [ta] =
      .ok ⟨[(k, 0 + va)], false⟩ from a1]
  have e3 : step (Sentinel.exact (strL "target")) 0 ⟨true, ⟨[(k, 0 + va)], false⟩, true⟩ [] =
      .ok ⟨true, ⟨[(k, 0 + va)], false⟩, false⟩ := rfl
  have e4 : step (Sentinel.exact (strL "target")) 0 ⟨true, ⟨[(k, 0 + va)], false⟩, false⟩
      (strL "fn=target") = .ok ⟨true, ⟨[(k, 0 + va)], false⟩, true⟩ := rfl
  have e5 : step (Sentinel.exact (strL "target")) 0 ⟨true, ⟨[(k, 0 + va)], false⟩, true⟩ tb =
      .ok ⟨true, ⟨[(k, 0 + va + vb)], false⟩, true⟩ := by
    rw [step_digit (Sentinel.exact (strL "target")) 0 _ tb hh2 rfl (by rw [ht2]; exact hd2)]
    rw [ht2, hs2, List.drop_zero]
    rw [show Costs.add_iter_str (⟨true, ⟨[(k, 0 + va)], false⟩, true⟩ : ScanState).costs [tb] =
      .ok ⟨[(k, 0 + va + vb)], false⟩ from a2]
  have hrun : runLines (Sentinel.exact (strL "target")) 0
      [strL "fn=target", ta, [], strL "fn=target", tb]
      ⟨false, ⟨[(k, 0)], false⟩, false⟩ =
      .ok ⟨true, ⟨[(k, 0 + va + vb)], false⟩, true⟩ := by
    simp only [runLines, e1, e2, e3, e4, e5]
  have hun : SentinelParser.parse ⟨Sentinel.exact (strL "target")⟩ label
      ⟨[], { entries := [(k, 0)], summarized := false }⟩
      [strL "fn=target", ta, [], strL "fn=target", tb] =
      match runLines (Sentinel.exact (strL "target")) 0
        [strL "fn=target", ta, [], strL "fn=target", tb]
        ⟨false, ⟨[(k, 0)], false⟩, false⟩ with
      | .ok s => if s.found then .ok s.costs
          else .error (.sentinelNotFound (strL "target") label)
      | .error e => .error e := rfl
  rw [hun, hrun]
  simp [Nat.zero_add]

/-- Witness for C1: the spec's own example — two disjoint `fn=target` blocks,
each followed by the single cost line "5", parse to the declared event's
counter equal to 10. -/
theorem c1_witness :
    SentinelParser.parse ⟨Sentinel.exact (strL "target")⟩ (strL "report")
        ⟨[], { entries := [(EventKind.Ir, 0)], summarized := false }⟩
        [strL "fn=target", strL "5", [], strL "fn=target", strL "5"] =
      .ok { entries := [(EventKind.Ir, 10)], summarized := false } := by
  have h := c1_multi_occurrence_aggregation EventKind.Ir (strL "report")
    (strL "5") (strL "5") 5 5 rfl rfl
  simpa using h

/-! ### The diff formatter (print.rs) -/

def digitChar (n : Nat) : Char := Char.ofNat (48 + n)

def natReprRev : Nat → List Char
  | 0 => []
  | n + 1 => digitChar ((n + 1) % 10) :: natReprRev ((n + 1) / 10)
decreasing_by exact Nat.div_lt_self (Nat.succ_pos n) (by decide)

/-- Decimal rendering of an unsigned counter (Rust `u64::to_string`). -/
def natRepr (n : Nat) : List Char :=
  if n = 0 then ['0'] else (natReprRev n).reverse

/-- Rust format alignment `{:<w}` (left, space fill). -/
def padRightTo (w : Nat) (s : List Char) : List Char :=
  s ++ List.replicate (w - s.length) ' '

/-- Rust format alignment `{:>w}` (right, space fill). -/
def padLeftTo (w : Nat) (s : List Char) : List Char :=
  List.replicate (w - s.length) ' ' ++ s

/-- Rust format alignment `{:f^w}` (center, fill `f`, extra fill on the right). -/
def centerTo (fill : Char) (w : Nat) (s : List Char) : List Char :=
  List.replicate ((w - s.length) / 2) fill ++ s ++
    List.replicate (w - s.length - (w - s.length) / 2) fill

/-- Modelled from the spec: the value space of the diff computations — a
signed exact value or a signed infinity, distinguished exactly by the f64
predicates `is_infinite` and `is_sign_positive` that the formatter branches
on (the NaN-free fragment the percentage/factor formulas can produce on
distinct inputs). -/
inductive FloatRep
  | finite (q : ℚ)
  | posInf
  | negInf
deriving DecidableEq

def FloatRep.isInfinite : FloatRep → Bool
  | .finite _ => false
  | .posInf => true
  | .negInf => true

def FloatRep.isSignPositive : FloatRep → Bool
  | .finite q => decide (0 ≤ q)
  | .posInf => true
  | .negInf => false

def padZeros (w : Nat) (s : List Char) : List Char :=
  List.replicate (w - s.length) '0' ++ s

/-- Modelled from the spec: `to_string_signed_short` renders a finite value
as an explicitly signed fixed-width decimal (a total width of eight
characters: more integer digits leave fewer fractional places, capped at
five) and an infinite value as a signed "inf" marker. -/
def to_string_signed_short : FloatRep → List Char
  | .posInf => strL "+inf"
  | .negInf => strL "-inf"
  | .finite q =>
    let sign : Char := if q < 0 then '-' else '+'
    let num : Nat := q.num.natAbs
    let den : Nat := q.den
    let ipStr : List Char := natRepr (num / den)
    let prec : Nat := min 5 (6 - ipStr.length)
    let scaled : Nat := num * 10 ^ prec / den % 10 ^ prec
    if prec = 0 then sign :: ipStr
    else sign :: ipStr ++ '.' :: padZeros prec (natRepr scaled)

/-- The abstract presentation tag the source attaches through terminal
coloring: bright red + bold marks a regression (alert), bright green + bold
an improvement (favorable). -/
inductive Emphasis
  | alert
  | favorable
deriving DecidableEq

/-- A formatted field together with its emphasis side channel. -/
structure ColoredText where
  text : List Char
  emph : Emphasis
deriving DecidableEq

/-- `Formatter::format_float` (print.rs lines 18-31): an infinite value is
centered in width 9 with its sign as the fill character and carries no unit
suffix; a finite value is centered in width 8 and suffixed with the unit.
Sign-positive values are alert-emphasised, negative ones favorable. -/
def format_float (f : FloatRep) (unit : List Char) : ColoredText :=
  let signed_short := to_string_signed_short f
  if f.isInfinite then
    if f.isSignPositive then ⟨centerTo '+' 9 signed_short, .alert⟩
    else ⟨centerTo '-' 9 signed_short, .favorable⟩
  else if f.isSignPositive then ⟨centerTo ' ' 8 signed_short ++ unit, .alert⟩
  else ⟨centerTo ' ' 8 signed_short ++ unit, .favorable⟩

/-- Modelled from the spec: `percentage_diff` = (new − old) / old * 100,
signed; signed infinity when old = 0 and new ≠ 0.  (The formatter never
calls it with new = old; that case is mapped to 0 here.) -/
def percentage_diff (n o : Nat) : FloatRep :=
  if o = 0 then (if n = 0 then .finite 0 else .posInf)
  else .finite (((n : ℚ) - (o : ℚ)) / (o : ℚ) * 100)

/-- Modelled from the spec: `factor_diff` = new / old when new ≥ old, else
−(old / new); a zero denominator saturates to the signed infinity. -/
def factor_diff (n o : Nat) : FloatRep :=
  if o ≤ n then
    (if o = 0 then (if n = 0 then .finite 1 else .posInf)
     else .finite ((n : ℚ) / (o : ℚ)))
  else
    (if n = 0 then .negInf else .finite (-((o : ℚ) / (n : ℚ))))

/-- Modelled from the spec: `Costs::is_summarized`. -/
def Costs.is_summarized (c : Costs) : Bool := c.summarized

/-- Modelled from the spec: `Costs::make_summary` computes every derived kind
once from the raw counters (total read+write, the hit tiers from the miss
counters, the weighted cycle estimate), records that in the summarized flag,
and fails — leaving the vector unchanged — exactly when a required raw
counter is absent. -/
def Costs.make_summary (c : Costs) : Costs :=
  match c.cost_by_kind .Ir, c.cost_by_kind .Dr, c.cost_by_kind .Dw,
      c.cost_by_kind .I1mr, c.cost_by_kind .D1mr, c.cost_by_kind .D1mw,
      c.cost_by_kind .ILmr, c.cost_by_kind .DLmr, c.cost_by_kind .DLmw with
  | some ir, some dr, some dw, some i1mr, some d1mr, some d1mw,
      some ilmr, some dlmr, some dlmw =>
    { entries := (c.entries.filter (fun p => !p.1.is_derived)) ++
        [(.L1hits, (ir + dr + dw) - (i1mr + d1mr + d1mw)),
         (.LLhits, (i1mr + d1mr + d1mw) - (ilmr + dlmr + dlmw)),
         (.RamHits, ilmr + dlmr + dlmw),
         (.TotalRW, ir + dr + dw),
         (.EstimatedCycles, ((ir + dr + dw) - (i1mr + d1mr + d1mw)) +
            5 * ((i1mr + d1mr + d1mw) - (ilmr + dlmr + dlmw)) +
            35 * (ilmr + dlmr + dlmw))],
      summarized := true }
  | _, _, _, _, _, _, _, _, _ => c

/-- The enum-variant display name (Rust `Display` of `EventKind`),
used for the auxiliary counters' row labels. -/
def EventKind.kindName : EventKind → List Char
  | .Ir => strL "Ir"
  | .Dr => strL "Dr"
  | .Dw => strL "Dw"
  | .I1mr => strL "I1mr"
  | .D1mr => strL "D1mr"
  | .D1mw => strL "D1mw"
  | .ILmr => strL "ILmr"
  | .DLmr => strL "DLmr"
  | .DLmw => strL "DLmw"
  | .SysCount => strL "SysCount"
  | .SysTime => strL "SysTime"
  | .SysCpuTime => strL "SysCpuTime"
  | .Ge => strL "Ge"
  | .Bc => strL "Bc"
  | .Bcm => strL "Bcm"
  | .Bi => strL "Bi"
  | .Bim => strL "Bim"
  | .ILdmr => strL "ILdmr"
  | .DLdmr => strL "DLdmr"
  | .DLdmw => strL "DLdmw"
  | .AcCost1 => strL "AcCost1"
  | .AcCost2 => strL "AcCost2"
  | .SpLoss1 => strL "SpLoss1"
  | .SpLoss2 => strL "SpLoss2"
  | .L1hits => strL "L1hits"
  | .LLhits => strL "LLhits"
  | .RamHits => strL "RamHits"
  | .TotalRW => strL "TotalRW"
  | .EstimatedCycles => strL "EstimatedCycles"

/-- The row label of print.rs lines 176-184. -/
def descOf (k : EventKind) : List Char :=
  match k with
  | .Ir => strL "Instructions:"
  | .L1hits => strL "L1 Hits:"
  | .LLhits => strL "L2 Hits:"
  | .RamHits => strL "RAM Hits:"
  | .TotalRW => strL "Total read+write:"
  | .EstimatedCycles => strL "Estimated Cycles:"
  | k => k.kindName ++ [':']

def notAvailable : List Char := strL "N/A"

def unknownMark : List Char := strL "*********"

def noChangeMark : List Char := strL "No change"

/-- One output row of `VerticalFormat::format` (the four match arms of
print.rs lines 185-224), as a function of the two looked-up counters.
Coloring is dropped; the column layout is kept:
`"  {description:<18}{new:>15}|{old:<15} ({delta:^9})"`, plus
`" [{factor:^9}]"` in the differing case.  Absent from both sides emits
nothing (the wildcard arm of line 223). -/
def rowFor (k : EventKind) (nv ov : Option Nat) : List Char :=
  match nv, ov with
  | none, some oldCost =>
    strL "  " ++ padRightTo 18 (descOf k) ++ padLeftTo 15 notAvailable ++ ['|'] ++
      padRightTo 15 (natRepr oldCost) ++ strL " (" ++ centerTo ' ' 9 unknownMark ++
      strL ")" ++ ['\n']
  | some newCost, none =>
    strL "  " ++ padRightTo 18 (descOf k) ++ padLeftTo 15 (natRepr newCost) ++ ['|'] ++
      padRightTo 15 notAvailable ++ strL " (" ++ centerTo ' ' 9 unknownMark ++
      strL ")" ++ ['\n']
  | some newCost, some oldCost =>
    if newCost = oldCost then
      strL "  " ++ padRightTo 18 (descOf k) ++ padLeftTo 15 (natRepr newCost) ++ ['|'] ++
        padRightTo 15 (natRepr oldCost) ++ strL " (" ++ centerTo ' ' 9 noChangeMark ++
        strL ")" ++ ['\n']
    else
      strL "  " ++ padRightTo 18 (descOf k) ++ padLeftTo 15 (natRepr newCost) ++ ['|'] ++
        padRightTo 15 (natRepr oldCost) ++ strL " (" ++
        centerTo ' ' 9 (format_float (percentage_diff newCost oldCost) (strL "%")).text ++
        strL ") [" ++
        centerTo ' ' 9 (format_float (factor_diff newCost oldCost) (strL "x")).text ++
        strL "]" ++ ['\n']
  | none, none => []

structure VerticalFormat where
  event_kinds : List EventKind

/-- `VerticalFormat::default` (print.rs lines 126-155): the fixed display order. -/
def VerticalFormat.default : VerticalFormat :=
  ⟨[.Ir, .L1hits, .LLhits, .RamHits, .TotalRW, .EstimatedCycles, .SysCount, .SysTime,
    .SysCpuTime, .Ge, .Bc, .Bcm, .Bi, .Bim, .ILdmr, .DLdmr, .DLdmw, .AcCost1, .AcCost2,
    .SpLoss1, .SpLoss2]⟩

/-- The loop-head update of the working copy of `new_costs`
(print.rs lines 168-171): on a derived kind an unsummarized vector is
summarized in place (through `Cow::to_mut`). -/
def stepNew (k : EventKind) (n : Costs) : Costs :=
  if k.is_derived && !n.is_summarized then n.make_summary else n

/-- The loop-head update of the working copy of `old_costs`
(print.rs lines 168 and 172-174). -/
def stepOld (k : EventKind) (o : Option Costs) : Option Costs :=
  if k.is_derived then
    (match o with
     | some c => some (if c.is_summarized then c else c.make_summary)
     | none => none)
  else o

/-- The loop of `VerticalFormat::format` (print.rs lines 167-225). -/
def formatLoop : List EventKind → Costs → Option Costs → List Char → List Char
  | [], _, _, acc => acc
  | k :: ks, n, o, acc =>
    formatLoop ks (stepNew k n) (stepOld k o)
      (acc ++ rowFor k ((stepNew k n).cost_by_kind k)
        (match stepOld k o with
         | some c => c.cost_by_kind k
         | none => none))

/-- `VerticalFormat::format` (print.rs lines 157-227), coloring dropped. -/
def VerticalFormat.format (v : VerticalFormat) (new_costs : Costs)
    (old_costs : Option Costs) : List Char :=
  formatLoop v.event_kinds new_costs old_costs []

/-- The summarize-on-demand the format loop applies through its Cow. -/
def summarizeIfNot (c : Costs) : Costs :=
  if c.is_summarized then c else c.make_summary

/-- The counter `VerticalFormat::format` effectively displays for kind `k`
from cost vector `c`: a derived kind is looked up after summarization, a raw
kind directly (summarization adds only derived entries, so the raw lookup is
insensitive to it). -/
def effCost (c : Costs) (k : EventKind) : Option Nat :=
  (if k.is_derived then summarizeIfNot c else c).cost_by_kind k

def effCostO (o : Option Costs) (k : EventKind) : Option Nat :=
  match o with
  | some c => effCost c k
  | none => none

/-! ### Formatter lemmas -/

theorem make_summary_summarized_or_id (c : Costs) :
    (c.make_summary).summarized = true ∨ c.make_summary = c := by
  unfold Costs.make_summary
  split
  · exact Or.inl rfl
  · exact Or.inr rfl

theorem summarizeIfNot_idem (c : Costs) :
    summarizeIfNot (summarizeIfNot c) = summarizeIfNot c := by
  unfold summarizeIfNot Costs.is_summarized
  by_cases h : c.summarized = true
  · simp [h]
  · have h' : c.summarized = false := by simpa using h
    simp only [h', Bool.false_eq_true, if_false]
    rcases make_summary_summarized_or_id c with hs | hid
    · simp [hs]
    · rw [hid]
      simp [h', hid]

theorem beq_false_of_derived_raw (kd k : EventKind) (hd : kd.is_derived = true)
    (hk : k.is_derived = false) : (kd == k) = false := by
  cases hb : kd == k with
  | false => rfl
  | true =>
    have he := eq_of_beq hb
    subst he
    rw [hk] at hd
    exact Bool.noConfusion hd

theorem find?_append_right_none {α : Type} (p : α → Bool) (l1 l2 : List α)
    (h : l2.find? p = none) : (l1 ++ l2).find? p = l1.find? p := by
  induction l1 with
  | nil => simpa using h
  | cons a l1 ih =>
    cases hp : p a with
    | true => simp [List.find?_cons, hp]
    | false => simp [List.find?_cons, hp, ih]

theorem find?_filter_not_derived (k : EventKind) (hk : k.is_derived = false) :
    ∀ es : List (EventKind × Nat),
      (es.filter (fun p => !p.1.is_derived)).find? (fun p => p.1 == k) =
        es.find? (fun p => p.1 == k) := by
  intro es
  induction es with
  | nil => rfl
  | cons p es ih =>
    obtain ⟨kp, v⟩ := p
    by_cases hb : (kp == k) = true
    · have he := eq_of_beq hb
      subst he
      simp [List.filter_cons, List.find?_cons, hk]
    · have hb' : (kp == k) = false := by simpa using hb
      cases hd : kp.is_derived with
      | true => simp [List.filter_cons, List.find?_cons, hd, hb', ih]
      | false => simp [List.filter_cons, List.find?_cons, hd, hb', ih]

theorem find?_derived_entries_none (k : EventKind) (hk : k.is_derived = false)
    (a b c d e : Nat) :
    (([(EventKind.L1hits, a), (EventKind.LLhits, b), (EventKind.RamHits, c),
       (EventKind.TotalRW, d), (EventKind.EstimatedCycles, e)] :
        List (EventKind × Nat)).find? (fun p => p.1 == k)) = none := by
  simp [List.find?_cons, beq_false_of_derived_raw .L1hits k rfl hk,
    beq_false_of_derived_raw .LLhits k rfl hk,
    beq_false_of_derived_raw .RamHits k rfl hk,
    beq_false_of_derived_raw .TotalRW k rfl hk,
    beq_false_of_derived_raw .EstimatedCycles k rfl hk]

theorem cost_by_kind_make_summary_raw (c : Costs) (k : EventKind)
    (hk : k.is_derived = false) :
    (c.make_summary).cost_by_kind k = c.cost_by_kind k := by
  unfold Costs.make_summary
  split
  · simp only [Costs.cost_by_kind]
    rw [find?_append_right_none _ _ _ (find?_derived_entries_none k hk _ _ _ _ _),
      find?_filter_not_derived k hk]
  · rfl

theorem cost_by_kind_summarizeIfNot_raw (c : Costs) (k : EventKind)
    (hk : k.is_derived = false) :
    (summarizeIfNot c).cost_by_kind k = c.cost_by_kind k := by
  unfold summarizeIfNot
  by_cases h : c.is_summarized = true
  · simp [h]
  · simp only [h, Bool.false_eq_true, if_false]
    exact cost_by_kind_make_summary_raw c k hk

theorem stepNew_eq (k : EventKind) (n : Costs) :
    stepNew k n = if k.is_derived then summarizeIfNot n else n := by
  unfold stepNew summarizeIfNot
  by_cases hk : k.is_derived = true <;> by_cases hs : n.is_summarized = true <;>
    simp [hk, hs]

theorem stepOld_eq (k : EventKind) (o : Option Costs) :
    stepOld k o = if k.is_derived then o.map summarizeIfNot else o := by
  unfold stepOld
  cases o with
  | none => by_cases hk : k.is_derived = true <;> simp [hk]
  | some c =>
    by_cases hk : k.is_derived = true <;> simp [hk, summarizeIfNot]

theorem effCost_summarizeIfNot (c : Costs) (k : EventKind) :
    effCost (summarizeIfNot c) k = effCost c k := by
  unfold effCost
  by_cases hk : k.is_derived = true
  · simp [hk, summarizeIfNot_idem]
  · have hk' : k.is_derived = false := by simpa using hk
    simp only [hk', Bool.false_eq_true, if_false]
    exact cost_by_kind_summarizeIfNot_raw c k hk'

theorem effCost_stepNew (j k : EventKind) (n : Costs) :
    effCost (stepNew j n) k = effCost n k := by
  rw [stepNew_eq]
  by_cases hj : j.is_derived = true
  · simp only [hj, if_true]
    exact effCost_summarizeIfNot n k
  · simp [hj]

theorem effCostO_stepOld (j k : EventKind) (o : Option Costs) :
    effCostO (stepOld j o) k = effCostO o k := by
  rw [stepOld_eq]
  cases o with
  | none => by_cases hj : j.is_derived = true <;> simp [hj, effCostO]
  | some c =>
    by_cases hj : j.is_derived = true
    · simp only [hj, if_true, Option.map_some]
      simp [effCostO, effCost_summarizeIfNot]
    · simp [hj]

theorem stepNew_lookup (k : EventKind) (n : Costs) :
    (stepNew k n).cost_by_kind k = effCost n k := by
  rw [stepNew_eq]
  unfold effCost
  by_cases hk : k.is_derived = true <;> simp [hk]

theorem stepOld_lookup (k : EventKind) (o : Option Costs) :
    (match stepOld k o with
     | some c => c.cost_by_kind k
     | none => none) = effCostO o k := by
  rw [stepOld_eq]
  cases o with
  | none => by_cases hk : k.is_derived = true <;> simp [hk, effCostO]
  | some c =>
    by_cases hk : k.is_derived = true
    · simp only [hk, if_true, Option.map_some]
      unfold effCostO effCost
      simp [hk]
    · simp only [hk, Bool.false_eq_true, if_false]
      unfold effCostO effCost
      have hk' : k.is_derived = false := by simpa using hk
      simp [hk']

/-- The format loop writes, for every kind of the display list in order,
exactly the row selected by the effective lookups of that kind. -/
theorem formatLoop_rows : ∀ (ks : List EventKind) (n : Costs) (o : Option Costs)
    (acc : List Char),
    formatLoop ks n o acc =
      acc ++ (ks.map (fun k => rowFor k (effCost n k) (effCostO o k))).flatten := by
  intro ks
  induction ks with
  | nil => intro n o acc; simp [formatLoop]
  | cons k ks ih =>
    intro n o acc
    rw [formatLoop, ih (stepNew k n) (stepOld k o)
      (acc ++ rowFor k ((stepNew k n).cost_by_kind k)
        (match stepOld k o with
         | some c => c.cost_by_kind k
         | none => none))]
    rw [stepNew_lookup, stepOld_lookup]
    have hmap : (ks.map (fun j => rowFor j (effCost (stepNew k n) j)
        (effCostO (stepOld k o) j))) =
        ks.map (fun j => rowFor j (effCost n j) (effCostO o j)) := by
      refine List.map_congr_left ?_
      intro j _
      rw [effCost_stepNew, effCostO_stepOld]
    rw [hmap]
    simp [List.flatten, List.append_assoc]

/-- Claim C6: for every event kind of the fixed display order, format emits
exactly the row the two effective lookups select — the new side "N/A" with
the unknown-magnitude marker when the kind is present only in old, the old
side "N/A" likewise when present only in new, a "No change" marker and no
percentage/factor when both values are equal, both values plus the signed
percentage and signed factor when they differ — and no row at all when the
kind is absent from both. -/
theorem c6_diff_row_selection (new_costs : Costs) (old_costs : Option Costs) :
    (VerticalFormat.default.format new_costs old_costs =
      (VerticalFormat.default.event_kinds.map
        (fun k => rowFor k (effCost new_costs k) (effCostO old_costs k))).flatten) ∧
    (∀ k : EventKind, rowFor k none none = []) ∧
    (∀ (k : EventKind) (oldCost : Nat), rowFor k none (some oldCost) =
      strL "  " ++ padRightTo 18 (descOf k) ++ padLeftTo 15 notAvailable ++ ['|'] ++
        padRightTo 15 (natRepr oldCost) ++ strL " (" ++ centerTo ' ' 9 unknownMark ++
        strL ")" ++ ['\n']) ∧
    (∀ (k : EventKind) (newCost : Nat), rowFor k (some newCost) none =
      strL "  " ++ padRightTo 18 (descOf k) ++ padLeftTo 15 (natRepr newCost) ++ ['|'] ++
        padRightTo 15 notAvailable ++ strL " (" ++ centerTo ' ' 9 unknownMark ++
        strL ")" ++ ['\n']) ∧
    (∀ (k : EventKind) (v : Nat), rowFor k (some v) (some v) =
      strL "  " ++ padRightTo 18 (descOf k) ++ padLeftTo 15 (natRepr v) ++ ['|'] ++
        padRightTo 15 (natRepr v) ++ strL " (" ++ centerTo ' ' 9 noChangeMark ++
        strL ")" ++ ['\n']) ∧
    (∀ (k : EventKind) (newCost oldCost : Nat), newCost ≠ oldCost →
      rowFor k (some newCost) (some oldCost) =
        strL "  " ++ padRightTo 18 (descOf k) ++ padLeftTo 15 (natRepr newCost) ++ ['|'] ++
          padRightTo 15 (natRepr oldCost) ++ strL " (" ++
          centerTo ' ' 9 (format_float (percentage_diff newCost oldCost) (strL "%")).text ++
          strL ") [" ++
          centerTo ' ' 9 (format_float (factor_diff newCost oldCost) (strL "x")).text ++
          strL "]" ++ ['\n']) := by
  refine ⟨?_, fun k => rfl, fun k oldCost => rfl, fun k newCost => rfl,
    fun k v => by simp [rowFor], fun k newCost oldCost hne => by simp [rowFor, hne]⟩
  show formatLoop VerticalFormat.default.event_kinds new_costs old_costs [] = _
  rw [formatLoop_rows]
  simp

/-- Claim C7: `format_float` tags sign-positive values (including positive
infinity) alert and negative values favorable; an infinite value renders as
the width-9 marker centered with its sign as the fill character, with no
unit suffix (the text does not depend on the unit at all); a finite value
renders as the width-8 centered signed decimal followed by the unit. -/
theorem c7_format_float_emphasis (f : FloatRep) (unit : List Char) :
    ((format_float f unit).emph = .alert ↔ f.isSignPositive = true) ∧
    (f.isInfinite = true →
      (format_float f unit).text =
        centerTo (if f.isSignPositive then '+' else '-') 9 (to_string_signed_short f) ∧
      (format_float f unit).text.length = 9 ∧
      (format_float f unit).text = (format_float f []).text) ∧
    (f.isInfinite = false →
      (format_float f unit).text = centerTo ' ' 8 (to_string_signed_short f) ++ unit) := by
  cases f with
  | posInf =>
    refine ⟨by simp [format_float, FloatRep.isInfinite, FloatRep.isSignPositive], ?_, ?_⟩
    · intro _
      refine ⟨rfl, ?_, rfl⟩
      show (centerTo '+' 9 (strL "+inf")).length = 9
      decide
    · intro h
      simp [FloatRep.isInfinite] at h
  | negInf =>
    refine ⟨?_, ?_, ?_⟩
    · simp [format_float, FloatRep.isInfinite, FloatRep.isSignPositive]
    · intro _
      refine ⟨rfl, ?_, rfl⟩
      show (centerTo '-' 9 (strL "-inf")).length = 9
      decide
    · intro h
      simp [FloatRep.isInfinite] at h
  | finite q =>
    refine ⟨?_, ?_, ?_⟩
    · by_cases hq : (0 : ℚ) ≤ q <;>
        simp [format_float, FloatRep.isInfinite, FloatRep.isSignPositive, hq]
    · intro h
      simp [FloatRep.isInfinite] at h
    · intro _
      by_cases hq : (0 : ℚ) ≤ q <;>
        simp [format_float, FloatRep.isInfinite, FloatRep.isSignPositive, hq]

/-- The old-side loop-head update with the borrowed original carried along:
the first component of each pair is the caller's vector, which the Cow never
writes (print.rs line 173 clones before mutating); only the working second
component is summarized. -/
def trackOld (k : EventKind) (o : Option (Costs × Costs)) : Option (Costs × Costs) :=
  if k.is_derived then
    (match o with
     | some p => some (p.1, if p.2.is_summarized then p.2 else p.2.make_summary)
     | none => none)
  else o

/-- `VerticalFormat::format`'s loop instrumented with the borrowed originals
of its Cow-wrapped inputs; it returns the rendered text together with the
originals as they stand after the loop. -/
def formatLoopTrack : List EventKind → Costs × Costs → Option (Costs × Costs) → List Char →
    List Char × Costs × Option Costs
  | [], np, o, acc => (acc, np.1, o.map Prod.fst)
  | k :: ks, np, o, acc =>
    formatLoopTrack ks (np.1, stepNew k np.2) (trackOld k o)
      (acc ++ rowFor k ((stepNew k np.2).cost_by_kind k)
        (match trackOld k o with
         | some p => p.2.cost_by_kind k
         | none => none))

theorem trackOld_map_fst (k : EventKind) (o : Option (Costs × Costs)) :
    (trackOld k o).map Prod.fst = o.map Prod.fst := by
  unfold trackOld
  cases o with
  | none => by_cases hk : k.is_derived = true <;> simp [hk]
  | some p => by_cases hk : k.is_derived = true <;> simp [hk]

theorem trackOld_map_snd (k : EventKind) (o : Option (Costs × Costs)) :
    (trackOld k o).map Prod.snd = stepOld k (o.map Prod.snd) := by
  unfold trackOld stepOld
  cases o with
  | none => by_cases hk : k.is_derived = true <;> simp [hk]
  | some p => by_cases hk : k.is_derived = true <;> simp [hk]

theorem trackOld_lookup (k : EventKind) (o : Option (Costs × Costs)) :
    (match trackOld k o with
     | some p => p.2.cost_by_kind k
     | none => none) =
    (match stepOld k (o.map Prod.snd) with
     | some c => c.cost_by_kind k
     | none => none) := by
  unfold trackOld stepOld
  cases o with
  | none => by_cases hk : k.is_derived = true <;> simp [hk]
  | some p => by_cases hk : k.is_derived = true <;> simp [hk]

theorem formatLoopTrack_eq : ∀ (ks : List EventKind) (a b : Costs)
    (o : Option (Costs × Costs)) (acc : List Char),
    formatLoopTrack ks (a, b) o acc =
      (formatLoop ks b (o.map Prod.snd) acc, a, o.map Prod.fst) := by
  intro ks
  induction ks with
  | nil => intro a b o acc; rfl
  | cons k ks ih =>
    intro a b o acc
    rw [formatLoopTrack, ih a (stepNew k b) (trackOld k o), trackOld_map_snd,
      trackOld_map_fst, trackOld_lookup, formatLoop]

/-- Claim C9: `format` never mutates its input cost vectors — the
summarization a derived kind needs happens on the loop's working copies
(the Cow), and the borrowed originals carried through the instrumented loop
come back exactly as they went in; the rendered text is the pure function
`VerticalFormat.format` of the two input values. -/
theorem c9_format_no_mutation (new_costs : Costs) (old_costs : Option Costs) :
    formatLoopTrack VerticalFormat.default.event_kinds (new_costs, new_costs)
        (old_costs.map (fun c => (c, c))) [] =
      (VerticalFormat.default.format new_costs old_costs, new_costs, old_costs) := by
  rw [formatLoopTrack_eq]
  have h1 : (old_costs.map (fun c => (c, c))).map Prod.snd = old_costs := by
    cases old_costs <;> rfl
  have h2 : (old_costs.map (fun c => (c, c))).map Prod.fst = old_costs := by
    cases old_costs <;> rfl
  rw [h1, h2]
  rfl

/-- `Header` (print.rs lines 11-15). -/
structure Header where
  module_path : List Char
  id : Option (List Char)
  description : Option (List Char)

/-- Modelled from the spec: `truncate_str_utf8` cuts to at most `len` whole
characters — the character-list embedding cannot split a multi-byte
character by construction. -/
def truncate_str_utf8 (s : List Char) (len : Nat) : List Char :=
  s.take len

/-- `Header::to_title` (print.rs lines 77-98): module path, then, only when
the id is present, the id and — only when the description is also present —
the truncated description with the "..." marker exactly when the truncation
shortened it. -/
def Header.to_title (h : Header) : List Char :=
  h.module_path ++
    (match h.id with
     | some i =>
       (match h.description with
        | some d =>
          strL " " ++ i ++ strL ":" ++ truncate_str_utf8 d 37 ++
            (if (truncate_str_utf8 d 37).length < d.length then strL "..." else [])
        | none => strL " " ++ i)
     | none => [])

/-- Claim C8: with both id and description present, the title truncates the
description to 37 characters and appends "..." exactly when the description
is longer than 37 characters; a description at or under 37 characters
renders unmodified with no marker. -/
theorem c8_title_truncation (mp i d : List Char) :
    (Header.to_title ⟨mp, some i, some d⟩ =
      mp ++ strL " " ++ i ++ strL ":" ++ d.take 37 ++
        (if 37 < d.length then strL "..." else [])) ∧
    (d.length ≤ 37 → Header.to_title ⟨mp, some i, some d⟩ =
      mp ++ strL " " ++ i ++ strL ":" ++ d) := by
  have hc : ((truncate_str_utf8 d 37).length < d.length) ↔ 37 < d.length := by
    simp only [truncate_str_utf8, List.length_take]
    omega
  constructor
  · show mp ++ (strL " " ++ i ++ strL ":" ++ truncate_str_utf8 d 37 ++
        (if (truncate_str_utf8 d 37).length < d.length then strL "..." else [])) = _
    by_cases h37 : 37 < d.length
    · rw [if_pos (hc.mpr h37), if_pos h37]
      simp [truncate_str_utf8, List.append_assoc]
    · rw [if_neg (fun hx => h37 (hc.mp hx)), if_neg h37]
      simp [truncate_str_utf8, List.append_assoc]
  · intro hle
    have htake : d.take 37 = d := List.take_of_length_le hle
    show mp ++ (strL " " ++ i ++ strL ":" ++ truncate_str_utf8 d 37 ++
        (if (truncate_str_utf8 d 37).length < d.length then strL "..." else [])) = _
    rw [if_neg (fun hx => by omega : ¬(truncate_str_utf8 d 37).length < d.length)]
    simp [truncate_str_utf8, htake, List.append_assoc]

/-- Claim C10: when the id is absent the title is the module path alone —
the description is omitted even when present. -/
theorem c10_title_without_id (mp : List Char) (d : Option (List Char)) :
    Header.to_title ⟨mp, none, d⟩ = mp := by
  simp [Header.to_title]
